import Mathlib

/-
Verification of the per-issue time accounting in jira_api (src/iJira.py):
the methods Jira_Issue.__set_time_in_status_record, __calc_time_in_status
and __calc_time_open, plus the pass that runs both (end of __load_issue).

Modelling conventions:
- Instants are integers counting seconds from an arbitrary epoch.  The
  timestamp format "%Y/%m/%d %H:%M" has minute resolution, but nothing here
  depends on that, and datetime.now() is an arbitrary instant.
- A stored updated_date string is modelled by RawDate: either a string that
  datetime.strptime accepts (represented by the instant it denotes) or a
  malformed one (strptime raises ValueError, modelled as Except.error).
- Python floor division (timedelta.days, //, %) coincides with Int division
  and Int emod in Lean for the positive divisors used here (86400, 3600, 60).
-/

namespace JiraApi

/-- An updated_date value: either a string parseable with format
"%Y/%m/%d %H:%M" (carrying the instant it denotes, in seconds) or a
malformed string. -/
inductive RawDate where
  | valid (seconds : Int)
  | malformed (s : String)
deriving DecidableEq, Repr

/-- datetime.strptime(s, DATE_FORMAT): yields the parsed instant, or raises
ValueError on a malformed string. -/
def strptime : RawDate → Except String Int
  | .valid t => .ok t
  | .malformed s => .error s

/-- True when strptime succeeds on the date. -/
def isValidDate : RawDate → Bool
  | .valid _ => true
  | .malformed _ => false

/-- The instant a valid RawDate denotes (junk value 0 on malformed input;
only used in specifications under a validity hypothesis). -/
def tsOf : RawDate → Int
  | .valid t => t
  | .malformed _ => 0

/-- Python str.lower, modelled as ASCII case folding over the characters
(status labels and field names here are ASCII). -/
def strLower (s : String) : String := ⟨s.data.map Char.toLower⟩

/-- One change-history entry (class Historic_Record in src/iJira.py),
restricted to the fields the calculators read. -/
structure HistoricRecord where
  field_name : String
  new_value : String
  updated_date : RawDate
  author : String := ""
  old_value : String := ""
deriving DecidableEq, Repr

/-- One entry of the __time_in_status dictionary: the keys days, hours,
minutes, seconds. -/
structure TISRec where
  days : Int
  hours : Int
  minutes : Int
  seconds : Int
deriving DecidableEq, Repr

/-- Jira_Issue.__set_time_in_status_record: add the span between
previous_date and current_date — decomposed as timedelta days, then
hours = seconds // 3600, then minutes = (seconds // 60) % 60 — onto the
accumulator entry for the given status.  The source mutates
self.__time_in_status[status]; every status passed in is pre-seeded, so the
KeyError path is unreachable and a missing key is modelled as a no-op. -/
def setTimeInStatusRecord (tis : String → Option TISRec) (status : String)
    (current_date previous_date : Int) : String → Option TISRec :=
  let time_delta := current_date - previous_date
  let days := time_delta / 86400
  let seconds := time_delta % 86400
  let hours := seconds / 3600
  let minutes := (seconds / 60) % 60
  fun s =>
    if s = status then
      (tis status).map fun r =>
        { r with days := r.days + days, hours := r.hours + hours,
                 minutes := r.minutes + minutes }
    else tis s

/-- The status filter of __calc_time_in_status: records whose field_name
equals the status field name, compared case-sensitively. -/
def statusRecs (change_history : List HistoricRecord) : List HistoricRecord :=
  change_history.filter fun r => r.field_name == "status"

/-- The status filter of __calc_time_open: records whose lower-cased
field_name equals the status field name. -/
def statusRecsL (change_history : List HistoricRecord) : List HistoricRecord :=
  change_history.filter fun r => strLower r.field_name == "status"

/-- The loop of Jira_Issue.__calc_time_in_status over
status_change_records, threading prev_status and prev_date (always assigned
together, hence one Option pair).  rec_hist_count is the length of
status_change_records, computed before the loop; the parameter now stands
for the value returned by the datetime.now() call on the single-record
path.  Returns the accumulator and the final prev pair. -/
def calcTimeInStatusAux (now : Int) (rec_hist_count : Nat) :
    List HistoricRecord → Option (String × Int) → (String → Option TISRec) →
    Except String ((String → Option TISRec) × Option (String × Int))
  | [], prev, tis => .ok (tis, prev)
  | rec :: rest, prev, tis => do
    let cur_date ← strptime rec.updated_date
    let (cur_date, prev) ←
      if rec_hist_count = 1 then do
        let pd ← strptime rec.updated_date
        pure (now, some (strLower rec.new_value, pd))
      else
        pure (cur_date, prev)
    match prev with
    | none => do
      let pd ← strptime rec.updated_date
      calcTimeInStatusAux now rec_hist_count rest
        (some (strLower rec.new_value, pd)) tis
    | some (prev_status, prev_date) =>
      calcTimeInStatusAux now rec_hist_count rest
        (some (strLower rec.new_value, cur_date))
        (setTimeInStatusRecord tis prev_status cur_date prev_date)

/-- The pre-seeding at the top of __calc_time_in_status: a zero entry for
every distinct lower-cased new_value among the status change records, no
entry otherwise. -/
def initOf (change_history : List HistoricRecord) : String → Option TISRec :=
  fun s =>
    if s ∈ (statusRecs change_history).map (fun c => strLower c.new_value) then
      some ⟨0, 0, 0, 0⟩
    else none

/-- Jira_Issue.__calc_time_in_status: pre-seed via initOf, walk the status
change records, then credit a final span up to now when more than one
record was processed.  The parameter now stands for the value returned by
whichever datetime.now() call executes in this pass (at most one of the
two call sites runs).  Result: the final mapping, or the ValueError of
the first failing strptime. -/
def calcTimeInStatus (now : Int) (change_history : List HistoricRecord) :
    Except String (String → Option TISRec) := do
  let status_change_records := statusRecs change_history
  let rec_hist_count := status_change_records.length
  let (tis, prev) ← calcTimeInStatusAux now rec_hist_count
    status_change_records none (initOf change_history)
  if rec_hist_count > 1 then
    match prev with
    | some (prev_status, prev_date) =>
      pure (setTimeInStatusRecord tis prev_status now prev_date)
    | none => pure tis
  else
    pure tis

/-- The result of __calc_time_in_status projected at one status label. -/
def tisAt (now : Int) (change_history : List HistoricRecord) (s : String) :
    Except String (Option TISRec) :=
  (calcTimeInStatus now change_history).map fun f => f s

/-- The fixed set of labels considered open in __calc_time_open. -/
def open_status : List String :=
  ["in progress", "in review", "needs follow up", "scheduled"]

/-- Membership of a lower-cased label in the open set. -/
def isOpenLabel (s : String) : Bool :=
  open_status.contains s

/-- The count open_recs computed at the top of __calc_time_open. -/
def openRecs (change_history : List HistoricRecord) : Nat :=
  (change_history.filter fun x =>
    strLower x.field_name == "status" && isOpenLabel (strLower x.new_value)).length

/-- The count closed_recs computed at the top of __calc_time_open. -/
def closedRecs (change_history : List HistoricRecord) : Nat :=
  (change_history.filter fun x =>
    strLower x.field_name == "status" && !(isOpenLabel (strLower x.new_value))).length

/-- The loop of Jira_Issue.__calc_time_open, over historic_records, with
the running index idx, the placeholders start_date and end_date, and the
accumulator days_open.  open_recs, closed_recs and total_recs are computed
before the loop and constant across it; today is the datetime.today()
value captured before the loop.  round on an integer is the identity and
is dropped; the subtraction today - start_date when start_date is None
raises TypeError, modelled as an error. -/
def calcTimeOpenLoop (today : Int) (open_recs closed_recs : Nat)
    (total_recs : Int) :
    List HistoricRecord → Int → Option Int → Option Int → Int →
    Except String Int
  | [], _, _, _, days_open => .ok days_open
  | status :: rest, idx, start_date, end_date, days_open => do
    let (start_date, end_date) ←
      if isOpenLabel (strLower status.new_value) then
        match start_date with
        | none => do
          let t ← strptime status.updated_date
          pure (some (t - 4 * 3600), end_date)
        | some s => pure (some s, end_date)
      else
        match start_date with
        | some s => do
          let t ← strptime status.updated_date
          pure (some s, some (t - 4 * 3600))
        | none => pure (start_date, end_date)
    if 0 < open_recs ∧ 0 < closed_recs then
      match end_date, start_date with
      | some e, some s =>
        calcTimeOpenLoop today open_recs closed_recs total_recs rest (idx + 1)
          none none (days_open + (e - s) / 86400)
      | none, some s =>
        if idx = total_recs then
          calcTimeOpenLoop today open_recs closed_recs total_recs rest (idx + 1)
            (some s) none (days_open + (today - s) / 86400)
        else
          calcTimeOpenLoop today open_recs closed_recs total_recs rest (idx + 1)
            (some s) none days_open
      | some e, none =>
        calcTimeOpenLoop today open_recs closed_recs total_recs rest (idx + 1)
          none (some e) days_open
      | none, none =>
        calcTimeOpenLoop today open_recs closed_recs total_recs rest (idx + 1)
          none none days_open
    else if open_recs = 0 ∧ 0 < closed_recs then
      .ok (days_open + 1)
    else if 0 < open_recs ∧ closed_recs = 0 then
      match start_date with
      | some s => .ok (days_open + (today - s) / 86400)
      | none => .error "TypeError: unsupported operand"
    else
      calcTimeOpenLoop today open_recs closed_recs total_recs rest (idx + 1)
        start_date end_date days_open

/-- Jira_Issue.__calc_time_open: counts, total_recs = closed + open - 1,
then the loop from index 0 with empty placeholders. -/
def calcTimeOpen (today : Int) (change_history : List HistoricRecord) :
    Except String Int :=
  let total_recs : Int :=
    (closedRecs change_history : Int) + (openRecs change_history : Int) - 1
  calcTimeOpenLoop today (openRecs change_history) (closedRecs change_history)
    total_recs (statusRecsL change_history) 0 none none 0

/-- The tail of Jira_Issue.__load_issue runs __calc_time_open and then
__calc_time_in_status for one issue.  Each of the two reads the clock
itself (datetime.today() resp. datetime.now()); the parameters today and
now stand for the values those two distinct reads return. -/
structure PassResult where
  open_days : Except String Int
  time_in_status : Except String (String → Option TISRec)

/-- The aggregation pass as the source performs it: one clock value per
clock-reading call site that executes. -/
def loadIssuePass (today now : Int) (change_history : List HistoricRecord) :
    PassResult :=
  ⟨calcTimeOpen today change_history, calcTimeInStatus now change_history⟩

/-- Reference pass with a single captured evaluation instant reused for
every now-relative calculation. -/
def singleInstantPass (t : Int) (change_history : List HistoricRecord) :
    PassResult :=
  ⟨calcTimeOpen t change_history, calcTimeInStatus t change_history⟩

/-! ### Specification-side definitions

The following definitions restate the walks the way the specification
describes them, over already-parsed (label, instant) pairs; the refinement
theorems below compare them with the source-derived functions above. -/

/-- The (lower-cased label, instant) view of a record list. -/
def pairsOf (recs : List HistoricRecord) : List (String × Int) :=
  recs.map fun r => (strLower r.new_value, tsOf r.updated_date)

/-- Status events of an issue as (label, instant) pairs, filtered the way
the time-in-status calculator filters. -/
def statusTimes (change_history : List HistoricRecord) : List (String × Int) :=
  pairsOf (statusRecs change_history)

/-- Status events as (label, instant) pairs, filtered the way the open
duration calculator filters. -/
def statusTimesL (change_history : List HistoricRecord) : List (String × Int) :=
  pairsOf (statusRecsL change_history)

/-- The distinct lower-cased status labels of an issue, in order of first
appearance. -/
def statusKeys (change_history : List HistoricRecord) : List String :=
  ((statusRecs change_history).map fun r => strLower r.new_value).dedup

/-- The minute value of one accumulator entry (absent entries count 0). -/
def minutesOf : Option TISRec → Int
  | some r => r.days * 1440 + r.hours * 60 + r.minutes
  | none => 0

/-- Total minutes recorded in an accumulator over a given key list. -/
def sumMinutesOver (keys : List String) (tis : String → Option TISRec) : Int :=
  (keys.map fun s => minutesOf (tis s)).sum

/-- The pure interval walk over already-parsed pairs: starting from the
pair held as previous, each later pair closes the span begun at the
previous pair, crediting it to the previous label; returns the final
accumulator and the final previous pair. -/
def walkPairs : String × Int → List (String × Int) →
    (String → Option TISRec) → (String → Option TISRec) × (String × Int)
  | p, [], tis => (tis, p)
  | (s, t), (s₂, t₂) :: rest, tis =>
    walkPairs (s₂, t₂) rest (setTimeInStatusRecord tis s t₂ t)

/-- Specification wording of one accumulation step: decompose the span
from startT to endT into whole days, then whole hours from the remainder
seconds, then whole minutes from what remains, and add them to the entry
for the given status. -/
def specAddSpan (tis : String → Option TISRec) (status : String)
    (startT endT : Int) : String → Option TISRec :=
  let span := endT - startT
  let wholeDays := span / 86400
  let remSeconds := span % 86400
  fun s =>
    if s = status then
      (tis s).map fun r =>
        { r with days := r.days + wholeDays,
                 hours := r.hours + remSeconds / 3600,
                 minutes := r.minutes + (remSeconds / 60) % 60 }
    else tis s

/-- Specification wording of the multi-event walk: on the first event only
remember its label and instant; each subsequent event credits the span
since the previous event to the previous label; after the loop the final
span up to now is credited to the last label. -/
def specWalkAux (now : Int) :
    String × Int → List (String × Int) → (String → Option TISRec) →
    (String → Option TISRec)
  | (s, t), [], tis => specAddSpan tis s t now
  | (s, t), (s₂, t₂) :: rest, tis =>
    specWalkAux now (s₂, t₂) rest (specAddSpan tis s t t₂)

/-- Specification wording of the whole time-in-status computation:
pre-seed a zero entry per distinct lower-cased label, then run the walk
when any status event exists. -/
def timeInStatusSpec (now : Int) (change_history : List HistoricRecord) :
    String → Option TISRec :=
  match statusTimes change_history with
  | [] => initOf change_history
  | p :: rest => specWalkAux now p rest (initOf change_history)

/-- Specification wording of the open-duration state machine in the mixed
regime: an OPEN event starts a span (instant minus four hours) when none
is active; a CLOSED event while a span is active ends it (instant minus
four hours) and adds the whole-day difference; a span still active after
the last event is closed against today. -/
def spanWalk (today : Int) :
    List (String × Int) → Option Int → Int
  | [], none => 0
  | [], some s => (today - s) / 86400
  | (st, t) :: rest, none =>
    if isOpenLabel st then spanWalk today rest (some (t - 4 * 3600))
    else spanWalk today rest none
  | (st, t) :: rest, some s =>
    if isOpenLabel st then spanWalk today rest (some s)
    else ((t - 4 * 3600) - s) / 86400 + spanWalk today rest none

def SecondsZero (tis : String → Option TISRec) : Prop :=
  ∀ s r, tis s = some r → r.seconds = 0

def exInProgress : HistoricRecord := ⟨"status", "In Progress", .valid 28800, "", ""⟩

def exDone : HistoricRecord := ⟨"status", "Done", .valid 201600, "", ""⟩

/-- The scenario of spec §8: status to In Progress at 2024/01/01 08:00 and
to Done at 2024/01/03 08:00, as seconds from 2024/01/01 00:00. -/
def exEvents : List HistoricRecord := [exInProgress, exDone]

def c4first : HistoricRecord := ⟨"status", "In Progress", .valid 28800, "", ""⟩

/-- A later OPEN event with an unparseable timestamp: never examined. -/
def c4later : HistoricRecord := ⟨"status", "Scheduled", .malformed "junk", "", ""⟩

def c4Events : List HistoricRecord := [c4first, c4later]

def c5Events : List HistoricRecord :=
  [⟨"status", "Done", .malformed "not a date", "", ""⟩,
   ⟨"status", "Closed", .malformed "junk", "", ""⟩]

def c6rec : HistoricRecord := ⟨"status", "Open", .valid 100, "", ""⟩

def c7NonStatus : HistoricRecord := ⟨"priority", "High", .valid 0, "", ""⟩

def c8rec : HistoricRecord := ⟨"status", "In Progress", .valid 0, "", ""⟩

def c8Events : List HistoricRecord := [c8rec]

def c9bad : List HistoricRecord :=
  [⟨"status", "Done", .malformed "not a date", "", ""⟩]

theorem strptime_valid (t : Int) : strptime (.valid t) = .ok t := rfl

theorem ok_bind {α β : Type} (a : α) (f : α → Except String β) :
    (Except.ok a >>= f) = f a := rfl

theorem error_bind {α β : Type} (e : String) (f : α → Except String β) :
    ((Except.error e : Except String α) >>= f) = Except.error e := rfl

theorem strptime_of_isValid {d : RawDate} (h : isValidDate d = true) :
    strptime d = .ok (tsOf d) := by
  cases d with
  | valid t => rfl
  | malformed s => simp [isValidDate] at h

theorem tisAux_nil (now : Int) (n : Nat) (prev : Option (String × Int))
    (tis : String → Option TISRec) :
    calcTimeInStatusAux now n [] prev tis = .ok (tis, prev) := rfl

theorem tisAux_cons_some (now : Int) (n : Nat) (hn : n ≠ 1)
    (rec : HistoricRecord) (rest : List HistoricRecord) (p : String × Int)
    (tis : String → Option TISRec)
    (hv : isValidDate rec.updated_date = true) :
    calcTimeInStatusAux now n (rec :: rest) (some p) tis =
      calcTimeInStatusAux now n rest
        (some (strLower rec.new_value, tsOf rec.updated_date))
        (setTimeInStatusRecord tis p.1 (tsOf rec.updated_date) p.2) := by
  obtain ⟨s, t⟩ := p
  cases d : rec.updated_date with
  | valid t₂ =>
    simp [calcTimeInStatusAux, d, strptime, hn, tsOf, ok_bind]
  | malformed m => rw [d] at hv; simp [isValidDate] at hv

theorem tisAux_cons_none (now : Int) (n : Nat) (hn : n ≠ 1)
    (rec : HistoricRecord) (rest : List HistoricRecord)
    (tis : String → Option TISRec)
    (hv : isValidDate rec.updated_date = true) :
    calcTimeInStatusAux now n (rec :: rest) none tis =
      calcTimeInStatusAux now n rest
        (some (strLower rec.new_value, tsOf rec.updated_date)) tis := by
  cases d : rec.updated_date with
  | valid t₂ =>
    simp [calcTimeInStatusAux, d, strptime, hn, tsOf, ok_bind]
  | malformed m => rw [d] at hv; simp [isValidDate] at hv

theorem tisAux_cons_malformed (now : Int) (n : Nat)
    (rec : HistoricRecord) (rest : List HistoricRecord)
    (prev : Option (String × Int)) (tis : String → Option TISRec)
    (m : String) (hd : rec.updated_date = .malformed m) :
    calcTimeInStatusAux now n (rec :: rest) prev tis = .error m := by
  simp [calcTimeInStatusAux, hd, strptime, error_bind]

theorem tisAux_eq_walkPairs (now : Int) (n : Nat) (hn : n ≠ 1) :
    ∀ (recs : List HistoricRecord),
      (∀ r ∈ recs, isValidDate r.updated_date = true) →
      ∀ (p : String × Int) (tis : String → Option TISRec),
      calcTimeInStatusAux now n recs (some p) tis =
        .ok ((walkPairs p (pairsOf recs) tis).1,
             some (walkPairs p (pairsOf recs) tis).2) := by
  intro recs
  induction recs with
  | nil => intro _ p tis; rfl
  | cons rec rest ih =>
    intro hv p tis
    rw [tisAux_cons_some now n hn rec rest p tis (hv rec (by simp))]
    rw [ih (fun r hr => hv r (by simp [hr])) _ _]
    obtain ⟨s, t⟩ := p
    rfl

theorem calcTimeInStatus_multi (now : Int) (ch : List HistoricRecord)
    (r0 : HistoricRecord) (rest : List HistoricRecord)
    (hscr : statusRecs ch = r0 :: rest) (hne : rest ≠ [])
    (hv : ∀ r ∈ statusRecs ch, isValidDate r.updated_date = true) :
    calcTimeInStatus now ch =
      .ok (setTimeInStatusRecord
        (walkPairs (strLower r0.new_value, tsOf r0.updated_date)
          (pairsOf rest) (initOf ch)).1
        (walkPairs (strLower r0.new_value, tsOf r0.updated_date)
          (pairsOf rest) (initOf ch)).2.1
        now
        (walkPairs (strLower r0.new_value, tsOf r0.updated_date)
          (pairsOf rest) (initOf ch)).2.2) := by
  have hlen : (statusRecs ch).length = rest.length + 1 := by rw [hscr]; simp
  have hr1 : 1 ≤ rest.length := by
    cases rest with
    | nil => exact absurd rfl hne
    | cons a b => simp
  have hn : (statusRecs ch).length ≠ 1 := by omega
  have hgt : (statusRecs ch).length > 1 := by omega
  rw [hscr] at hv
  unfold calcTimeInStatus
  rw [hscr]
  dsimp only
  rw [tisAux_cons_none now _ (by rw [hscr] at hn; exact hn) r0 rest _
    (hv r0 (by simp))]
  rw [tisAux_eq_walkPairs now _ (by rw [hscr] at hn; exact hn) rest
    (fun r hr => hv r (by simp [hr])) _ _]
  rw [ok_bind]
  dsimp only
  rw [if_pos (by rw [hscr] at hgt; exact hgt)]
  rfl

theorem decomp_minutes (d : Int) :
    d / 86400 * 1440 + d % 86400 / 3600 * 60 + d % 86400 / 60 % 60 = d / 60 := by
  omega

theorem div60_bounds (d : Int) :
    0 ≤ d - 60 * (d / 60) ∧ d - 60 * (d / 60) ≤ 59 := by
  omega

theorem setTIS_ne (tis : String → Option TISRec) (k : String)
    (cur prev : Int) (s : String) (h : s ≠ k) :
    setTimeInStatusRecord tis k cur prev s = tis s := by
  simp [setTimeInStatusRecord, h]

theorem setTIS_isSome (tis : String → Option TISRec) (k : String)
    (cur prev : Int) (s : String) (h : (tis s).isSome) :
    ((setTimeInStatusRecord tis k cur prev) s).isSome := by
  by_cases hsk : s = k
  · subst hsk; simp [setTimeInStatusRecord]
    obtain ⟨r, hr⟩ := Option.isSome_iff_exists.mp h
    simp [hr]
  · rwa [setTIS_ne tis k cur prev s hsk]

theorem setTIS_self (tis : String → Option TISRec) (k : String)
    (cur prev : Int) (r : TISRec) (hr : tis k = some r) :
    setTimeInStatusRecord tis k cur prev k =
      some { r with days := r.days + (cur - prev) / 86400,
                    hours := r.hours + (cur - prev) % 86400 / 3600,
                    minutes := r.minutes + (cur - prev) % 86400 / 60 % 60 } := by
  unfold setTimeInStatusRecord
  rw [if_pos rfl, hr]
  rfl

theorem minutesOf_some (r : TISRec) :
    minutesOf (some r) = r.days * 1440 + r.hours * 60 + r.minutes := rfl

theorem sumMinutesOver_update (keys : List String) (hnd : keys.Nodup)
    (k : String) (hk : k ∈ keys) (tis : String → Option TISRec)
    (hsome : (tis k).isSome) (cur prev : Int) :
    sumMinutesOver keys (setTimeInStatusRecord tis k cur prev) =
      sumMinutesOver keys tis + (cur - prev) / 60 := by
  induction keys with
  | nil => simp at hk
  | cons a as ih =>
    obtain ⟨r, hr⟩ := Option.isSome_iff_exists.mp hsome
    rcases List.mem_cons.mp hk with hak | has
    · subst hak
      have hnotin : k ∉ as := (List.nodup_cons.mp hnd).1
      have htail : (as.map fun s =>
            minutesOf (setTimeInStatusRecord tis k cur prev s)) =
          as.map fun s => minutesOf (tis s) := by
        apply List.map_congr_left
        intro s hs
        rw [setTIS_ne tis k cur prev s (by rintro rfl; exact hnotin hs)]
      simp only [sumMinutesOver, List.map_cons, List.sum_cons, htail]
      rw [setTIS_self tis k cur prev r hr, hr, minutesOf_some, minutesOf_some]
      dsimp only
      simp only [add_mul]
      omega
    · have hne : a ≠ k := by
        rintro rfl; exact (List.nodup_cons.mp hnd).1 has
      simp only [sumMinutesOver, List.map_cons, List.sum_cons]
      rw [setTIS_ne tis k cur prev a hne]
      have := ih (List.nodup_cons.mp hnd).2 has
      simp only [sumMinutesOver] at this
      omega

theorem walkPairs_inv (keys : List String) (hnd : keys.Nodup)
    (pairs : List (String × Int)) :
    ∀ (p : String × Int) (tis : String → Option TISRec),
      p.1 ∈ keys → (∀ q ∈ pairs, q.1 ∈ keys) →
      (∀ k ∈ keys, (tis k).isSome) →
      (walkPairs p pairs tis).2.1 ∈ keys ∧
      (∀ k ∈ keys, ((walkPairs p pairs tis).1 k).isSome) ∧
      0 ≤ (walkPairs p pairs tis).2.2 - p.2 -
          60 * (sumMinutesOver keys (walkPairs p pairs tis).1 -
            sumMinutesOver keys tis) ∧
      (walkPairs p pairs tis).2.2 - p.2 -
          60 * (sumMinutesOver keys (walkPairs p pairs tis).1 -
            sumMinutesOver keys tis)
        ≤ 59 * pairs.length := by
  induction pairs with
  | nil =>
    intro p tis hp _ hs
    exact ⟨hp, hs, by simp [walkPairs], by simp [walkPairs]⟩
  | cons q rest ih =>
    intro p tis hp hq hs
    obtain ⟨s, t⟩ := p
    obtain ⟨s₂, t₂⟩ := q
    have hstep : walkPairs (s, t) ((s₂, t₂) :: rest) tis =
        walkPairs (s₂, t₂) rest (setTimeInStatusRecord tis s t₂ t) := rfl
    rw [hstep]
    have hs₂ : ∀ k ∈ keys, ((setTimeInStatusRecord tis s t₂ t) k).isSome :=
      fun k hk => setTIS_isSome tis s t₂ t k (hs k hk)
    have hsum : sumMinutesOver keys (setTimeInStatusRecord tis s t₂ t) =
        sumMinutesOver keys tis + (t₂ - t) / 60 :=
      sumMinutesOver_update keys hnd s hp tis (hs s hp) t₂ t
    obtain ⟨h1, h2, h3, h4⟩ := ih (s₂, t₂) (setTimeInStatusRecord tis s t₂ t)
      (hq (s₂, t₂) (by simp)) (fun x hx => hq x (by simp [hx])) hs₂
    refine ⟨h1, h2, ?_, ?_⟩
    · rw [hsum] at h3
      have hb := div60_bounds (t₂ - t)
      omega
    · rw [hsum] at h4
      have hb := div60_bounds (t₂ - t)
      simp only [List.length_cons]
      omega

theorem statusKeys_nodup (ch : List HistoricRecord) : (statusKeys ch).Nodup :=
  List.nodup_dedup _

theorem mem_statusKeys (ch : List HistoricRecord) (r : HistoricRecord)
    (hr : r ∈ statusRecs ch) : strLower r.new_value ∈ statusKeys ch := by
  unfold statusKeys
  rw [List.mem_dedup]
  exact List.mem_map.mpr ⟨r, hr, rfl⟩

theorem initOf_isSome (ch : List HistoricRecord) (k : String)
    (hk : k ∈ statusKeys ch) : ((initOf ch) k).isSome := by
  unfold initOf
  rw [if_pos (List.mem_dedup.mp hk)]
  rfl

theorem sumMinutes_initOf (keys : List String) (ch : List HistoricRecord) :
    sumMinutesOver keys (initOf ch) = 0 := by
  unfold sumMinutesOver
  apply List.sum_eq_zero
  intro x hx
  obtain ⟨s, _, rfl⟩ := List.mem_map.mp hx
  by_cases h : s ∈ (statusRecs ch).map fun c => strLower c.new_value
  · simp [initOf, h, minutesOf]
  · simp [initOf, h, minutesOf]

theorem pairsOf_fst_mem (ch : List HistoricRecord) (recs : List HistoricRecord)
    (hsub : ∀ r ∈ recs, r ∈ statusRecs ch) :
    ∀ q ∈ pairsOf recs, q.1 ∈ statusKeys ch := by
  intro q hq
  obtain ⟨r, hr, rfl⟩ := List.mem_map.mp hq
  exact mem_statusKeys ch r (hsub r hr)

theorem tis_total_minutes (ch : List HistoricRecord) (now t0 : Int)
    (r0 : HistoricRecord) (rest : List HistoricRecord)
    (hscr : statusRecs ch = r0 :: rest)
    (hlen : 2 ≤ (statusRecs ch).length)
    (hvalid : ∀ r ∈ statusRecs ch, isValidDate r.updated_date = true)
    (ht0 : r0.updated_date = RawDate.valid t0) :
    ∃ tis, calcTimeInStatus now ch = .ok tis ∧
      0 ≤ now - t0 - 60 * sumMinutesOver (statusKeys ch) tis ∧
      now - t0 - 60 * sumMinutesOver (statusKeys ch) tis <
        60 * (statusRecs ch).length := by
  have hne : rest ≠ [] := by
    intro h
    rw [h] at hscr
    rw [hscr] at hlen
    simp at hlen
  rw [calcTimeInStatus_multi now ch r0 rest hscr hne hvalid]
  have hts : tsOf r0.updated_date = t0 := by rw [ht0]; rfl
  rw [hts]
  refine ⟨_, rfl, ?_⟩
  have hr0 : r0 ∈ statusRecs ch := by rw [hscr]; simp
  have hp1 : strLower r0.new_value ∈ statusKeys ch := mem_statusKeys ch r0 hr0
  have hq : ∀ q ∈ pairsOf rest, q.1 ∈ statusKeys ch :=
    pairsOf_fst_mem ch rest (fun r hr => by rw [hscr]; simp [hr])
  have hinit : ∀ k ∈ statusKeys ch, ((initOf ch) k).isSome :=
    fun k hk => initOf_isSome ch k hk
  obtain ⟨h1, h2, h3, h4⟩ := walkPairs_inv (statusKeys ch) (statusKeys_nodup ch)
    (pairsOf rest) (strLower r0.new_value, t0) (initOf ch)
    hp1 hq hinit
  have hfin := sumMinutesOver_update (statusKeys ch) (statusKeys_nodup ch)
    (walkPairs (strLower r0.new_value, t0) (pairsOf rest) (initOf ch)).2.1 h1
    (walkPairs (strLower r0.new_value, t0) (pairsOf rest) (initOf ch)).1
    (h2 _ h1) now
    (walkPairs (strLower r0.new_value, t0) (pairsOf rest) (initOf ch)).2.2
  rw [hfin]
  have hz := sumMinutes_initOf (statusKeys ch) ch
  have hb := div60_bounds
    (now - (walkPairs (strLower r0.new_value, t0) (pairsOf rest) (initOf ch)).2.2)
  have hlen2 : (statusRecs ch).length = rest.length + 1 := by rw [hscr]; simp
  have hlp : (pairsOf rest).length = rest.length := by simp [pairsOf]
  rw [hz] at h3 h4
  rw [hlp] at h4
  omega

theorem specAddSpan_eq (tis : String → Option TISRec) (st : String)
    (a b : Int) :
    specAddSpan tis st a b = setTimeInStatusRecord tis st b a := by
  funext x
  unfold specAddSpan setTimeInStatusRecord
  by_cases h : x = st <;> simp [h]

theorem specWalkAux_eq (now : Int) :
    ∀ (pairs : List (String × Int)) (p : String × Int)
      (tis : String → Option TISRec),
    specWalkAux now p pairs tis =
      setTimeInStatusRecord (walkPairs p pairs tis).1
        (walkPairs p pairs tis).2.1 now (walkPairs p pairs tis).2.2 := by
  intro pairs
  induction pairs with
  | nil =>
    intro p tis
    obtain ⟨s, t⟩ := p
    exact specAddSpan_eq tis s t now
  | cons q rest ih =>
    intro p tis
    obtain ⟨s, t⟩ := p
    obtain ⟨s₂, t₂⟩ := q
    show specWalkAux now (s₂, t₂) rest (specAddSpan tis s t t₂) = _
    rw [specAddSpan_eq tis s t t₂]
    exact ih (s₂, t₂) _

theorem calcTimeInStatus_eq_spec (now : Int) (ch : List HistoricRecord)
    (hlen : 2 ≤ (statusRecs ch).length)
    (hvalid : ∀ r ∈ statusRecs ch, isValidDate r.updated_date = true) :
    calcTimeInStatus now ch = .ok (timeInStatusSpec now ch) := by
  cases hscr : statusRecs ch with
  | nil => rw [hscr] at hlen; simp at hlen
  | cons r0 rest =>
    have hne : rest ≠ [] := by
      intro h
      rw [h] at hscr
      rw [hscr] at hlen
      simp at hlen
    rw [calcTimeInStatus_multi now ch r0 rest hscr hne hvalid]
    congr 1
    have h1 : statusTimes ch =
        (strLower r0.new_value, tsOf r0.updated_date) :: pairsOf rest := by
      unfold statusTimes
      rw [hscr]
      rfl
    have h2 : timeInStatusSpec now ch =
        specWalkAux now (strLower r0.new_value, tsOf r0.updated_date)
          (pairsOf rest) (initOf ch) := by
      unfold timeInStatusSpec
      rw [h1]
    rw [h2, specWalkAux_eq now (pairsOf rest) _ (initOf ch)]

theorem tisAux_cons_one (now : Int) (rec : HistoricRecord)
    (rest : List HistoricRecord) (prev : Option (String × Int))
    (tis : String → Option TISRec)
    (hv : isValidDate rec.updated_date = true) :
    calcTimeInStatusAux now 1 (rec :: rest) prev tis =
      calcTimeInStatusAux now 1 rest (some (strLower rec.new_value, now))
        (setTimeInStatusRecord tis (strLower rec.new_value) now
          (tsOf rec.updated_date)) := by
  cases d : rec.updated_date with
  | valid t => simp [calcTimeInStatusAux, d, strptime, tsOf, ok_bind]
  | malformed m => rw [d] at hv; simp [isValidDate] at hv

theorem tisAux_step (now : Int) (n : Nat) (rec : HistoricRecord)
    (rest : List HistoricRecord) (prev : Option (String × Int))
    (tis : String → Option TISRec)
    (hv : isValidDate rec.updated_date = true) :
    ∃ prev₂ tis₂, calcTimeInStatusAux now n (rec :: rest) prev tis =
        calcTimeInStatusAux now n rest prev₂ tis₂ ∧
      (tis₂ = tis ∨ ∃ k c p, tis₂ = setTimeInStatusRecord tis k c p) := by
  by_cases hn : n = 1
  · subst hn
    exact ⟨_, _, tisAux_cons_one now rec rest prev tis hv,
      Or.inr ⟨_, _, _, rfl⟩⟩
  · cases prev with
    | none =>
      exact ⟨_, _, tisAux_cons_none now n hn rec rest tis hv, Or.inl rfl⟩
    | some p =>
      exact ⟨_, _, tisAux_cons_some now n hn rec rest p tis hv,
        Or.inr ⟨_, _, _, rfl⟩⟩

theorem tisAux_error (now : Int) (n : Nat) :
    ∀ (recs : List HistoricRecord) (prev : Option (String × Int))
      (tis : String → Option TISRec),
      (∃ r ∈ recs, isValidDate r.updated_date = false) →
      ∃ e, calcTimeInStatusAux now n recs prev tis = .error e := by
  intro recs
  induction recs with
  | nil =>
    rintro prev tis ⟨r, hm, _⟩
    simp at hm
  | cons rec rest ih =>
    rintro prev tis ⟨r, hr, hbad⟩
    cases hvd : isValidDate rec.updated_date with
    | false =>
      cases d : rec.updated_date with
      | valid t => rw [d] at hvd; simp [isValidDate] at hvd
      | malformed m =>
        exact ⟨m, tisAux_cons_malformed now n rec rest prev tis m d⟩
    | true =>
      have hr₂ : r ∈ rest := by
        rcases List.mem_cons.mp hr with rfl | h
        · rw [hvd] at hbad; exact absurd hbad (by simp)
        · exact h
      obtain ⟨prev₂, tis₂, hstep, _⟩ := tisAux_step now n rec rest prev tis hvd
      obtain ⟨e, he⟩ := ih prev₂ tis₂ ⟨r, hr₂, hbad⟩
      exact ⟨e, by rw [hstep]; exact he⟩

theorem tisAux_ok (now : Int) (n : Nat) :
    ∀ (recs : List HistoricRecord) (prev : Option (String × Int))
      (tis : String → Option TISRec),
      (∀ r ∈ recs, isValidDate r.updated_date = true) →
      ∃ out, calcTimeInStatusAux now n recs prev tis = .ok out := by
  intro recs
  induction recs with
  | nil => intro prev tis _; exact ⟨(tis, prev), rfl⟩
  | cons rec rest ih =>
    intro prev tis hv
    obtain ⟨prev₂, tis₂, hstep, _⟩ :=
      tisAux_step now n rec rest prev tis (hv rec (by simp))
    obtain ⟨out, hout⟩ := ih prev₂ tis₂ (fun r hr => hv r (by simp [hr]))
    exact ⟨out, by rw [hstep]; exact hout⟩

theorem calcTimeInStatus_error (now : Int) (ch : List HistoricRecord)
    (h : ∃ r ∈ statusRecs ch, isValidDate r.updated_date = false) :
    ∃ e, calcTimeInStatus now ch = .error e := by
  obtain ⟨e, he⟩ := tisAux_error now (statusRecs ch).length (statusRecs ch)
    none (initOf ch) h
  refine ⟨e, ?_⟩
  unfold calcTimeInStatus
  dsimp only
  rw [he]
  rfl

theorem calcTimeInStatus_ok (now : Int) (ch : List HistoricRecord)
    (h : ∀ r ∈ statusRecs ch, isValidDate r.updated_date = true) :
    ∃ tis, calcTimeInStatus now ch = .ok tis := by
  obtain ⟨⟨t₁, prev⟩, hok⟩ := tisAux_ok now (statusRecs ch).length
    (statusRecs ch) none (initOf ch) h
  unfold calcTimeInStatus
  dsimp only
  rw [hok, ok_bind]
  by_cases hgt : (statusRecs ch).length > 1
  · rw [if_pos hgt]
    cases prev with
    | none => exact ⟨_, rfl⟩
    | some p =>
      obtain ⟨a, b⟩ := p
      exact ⟨_, rfl⟩
  · rw [if_neg hgt]
    exact ⟨_, rfl⟩

theorem calcTimeInStatus_single (now : Int) (ch : List HistoricRecord)
    (r : HistoricRecord) (T : Int) (hscr : statusRecs ch = [r])
    (hv : r.updated_date = .valid T) :
    calcTimeInStatus now ch =
      .ok (setTimeInStatusRecord (initOf ch) (strLower r.new_value) now T) := by
  unfold calcTimeInStatus
  rw [hscr]
  dsimp only
  rw [show calcTimeInStatusAux now [r].length [r] none (initOf ch) =
      calcTimeInStatusAux now 1 [] (some (strLower r.new_value, now))
        (setTimeInStatusRecord (initOf ch) (strLower r.new_value) now
          (tsOf r.updated_date)) from
    tisAux_cons_one now r [] none (initOf ch) (by rw [hv]; rfl)]
  rw [hv]
  rfl

theorem calcTimeInStatus_empty (now : Int) (ch : List HistoricRecord)
    (h : statusRecs ch = []) :
    calcTimeInStatus now ch = .ok (initOf ch) := by
  unfold calcTimeInStatus
  rw [h]
  rfl

theorem initOf_none (ch : List HistoricRecord) (s : String)
    (h : statusRecs ch = []) : initOf ch s = none := by
  unfold initOf
  rw [h]
  simp

theorem statusRecs_nil_of_L (ch : List HistoricRecord)
    (h : statusRecsL ch = []) : statusRecs ch = [] := by
  unfold statusRecsL at h
  unfold statusRecs
  rw [List.filter_eq_nil_iff] at h ⊢
  intro a ha hfa
  apply h a ha
  have hfn : a.field_name = "status" := by simpa using hfa
  rw [hfn]
  decide

theorem calcTimeOpen_empty (today : Int) (ch : List HistoricRecord)
    (h : statusRecsL ch = []) : calcTimeOpen today ch = .ok 0 := by
  unfold calcTimeOpen
  rw [h]
  rfl

theorem setTIS_self_none (tis : String → Option TISRec) (k : String)
    (cur prev : Int) (h : tis k = none) :
    setTimeInStatusRecord tis k cur prev k = none := by
  unfold setTimeInStatusRecord
  rw [if_pos rfl, h]
  rfl

theorem setTIS_seconds_eq (tis : String → Option TISRec) (k : String)
    (cur prev : Int) (s : String) (r : TISRec)
    (hs : setTimeInStatusRecord tis k cur prev s = some r) :
    ∃ r₀, tis s = some r₀ ∧ r.seconds = r₀.seconds := by
  by_cases hsk : s = k
  · subst hsk
    cases ho : tis s with
    | none =>
      rw [setTIS_self_none tis s cur prev ho] at hs
      exact absurd hs (by simp)
    | some r₀ =>
      rw [setTIS_self tis s cur prev r₀ ho] at hs
      refine ⟨r₀, rfl, ?_⟩
      have hin := (Option.some.injEq _ _).mp hs
      rw [← hin]
  · rw [setTIS_ne tis k cur prev s hsk] at hs
    exact ⟨r, hs, rfl⟩

theorem setTIS_secondsZero (tis : String → Option TISRec) (k : String)
    (cur prev : Int) (h : SecondsZero tis) :
    SecondsZero (setTimeInStatusRecord tis k cur prev) := by
  intro s r hs
  obtain ⟨r₀, h₀, hsec⟩ := setTIS_seconds_eq tis k cur prev s r hs
  rw [hsec]
  exact h s r₀ h₀

theorem initOf_secondsZero (ch : List HistoricRecord) :
    SecondsZero (initOf ch) := by
  intro s r hs
  unfold initOf at hs
  by_cases h : s ∈ (statusRecs ch).map fun c => strLower c.new_value
  · rw [if_pos h] at hs
    have hin := (Option.some.injEq _ _).mp hs
    rw [← hin]
  · rw [if_neg h] at hs
    simp at hs

theorem tisAux_secondsZero (now : Int) (n : Nat) :
    ∀ (recs : List HistoricRecord) (prev : Option (String × Int))
      (tis : String → Option TISRec) out,
      SecondsZero tis →
      calcTimeInStatusAux now n recs prev tis = .ok out →
      SecondsZero out.1 := by
  intro recs
  induction recs with
  | nil =>
    intro prev tis out hz hout
    have : out = (tis, prev) := by
      rw [tisAux_nil] at hout
      exact ((Except.ok.injEq _ _).mp hout).symm
    rw [this]
    exact hz
  | cons rec rest ih =>
    intro prev tis out hz hout
    cases hvd : isValidDate rec.updated_date with
    | false =>
      cases d : rec.updated_date with
      | valid t => rw [d] at hvd; simp [isValidDate] at hvd
      | malformed m =>
        rw [tisAux_cons_malformed now n rec rest prev tis m d] at hout
        simp at hout
    | true =>
      obtain ⟨prev₂, tis₂, hstep, hpres⟩ :=
        tisAux_step now n rec rest prev tis hvd
      rw [hstep] at hout
      have hz₂ : SecondsZero tis₂ := by
        rcases hpres with rfl | ⟨k, c, p, rfl⟩
        · exact hz
        · exact setTIS_secondsZero tis k c p hz
      exact ih prev₂ tis₂ out hz₂ hout

theorem calcTimeInStatus_secondsZero (now : Int) (ch : List HistoricRecord)
    (tis : String → Option TISRec) (h : calcTimeInStatus now ch = .ok tis) :
    SecondsZero tis := by
  unfold calcTimeInStatus at h
  dsimp only at h
  cases haux : calcTimeInStatusAux now (statusRecs ch).length
      (statusRecs ch) none (initOf ch) with
  | error e => rw [haux] at h; simp [error_bind] at h
  | ok out =>
    rw [haux, ok_bind] at h
    have hz := tisAux_secondsZero now (statusRecs ch).length (statusRecs ch)
      none (initOf ch) out (initOf_secondsZero ch) haux
    obtain ⟨t₁, prev⟩ := out
    by_cases hgt : (statusRecs ch).length > 1
    · rw [if_pos hgt] at h
      cases prev with
      | none =>
        have : tis = t₁ := ((Except.ok.injEq _ _).mp h).symm
        rw [this]; exact hz
      | some p =>
        obtain ⟨a, b⟩ := p
        have : tis = setTimeInStatusRecord t₁ a now b :=
          ((Except.ok.injEq _ _).mp h).symm
        rw [this]
        exact setTIS_secondsZero t₁ a now b hz
    · rw [if_neg hgt] at h
      have : tis = t₁ := ((Except.ok.injEq _ _).mp h).symm
      rw [this]; exact hz

theorem openLoop_closedOnly (today : Int) (oc cc : Nat) (hoc : oc = 0)
    (hcc : 0 < cc) (tr : Int) (rec : HistoricRecord)
    (rest : List HistoricRecord) (idx days : Int)
    (hol : isOpenLabel (strLower rec.new_value) = false) :
    calcTimeOpenLoop today oc cc tr (rec :: rest) idx none none days =
      .ok (days + 1) := by
  subst hoc
  simp [calcTimeOpenLoop, hol, hcc, ok_bind]

theorem openLoop_openOnly (today : Int) (oc cc : Nat) (hoc : 0 < oc)
    (hcc : cc = 0) (tr : Int) (rec : HistoricRecord)
    (rest : List HistoricRecord) (idx days t : Int)
    (hol : isOpenLabel (strLower rec.new_value) = true)
    (hd : rec.updated_date = .valid t) :
    calcTimeOpenLoop today oc cc tr (rec :: rest) idx none none days =
      .ok (days + (today - (t - 4 * 3600)) / 86400) := by
  subst hcc
  simp [calcTimeOpenLoop, hol, hd, strptime, ok_bind, hoc]

theorem openLoop_mixed (today : Int) (oc cc : Nat) (hoc : 0 < oc)
    (hcc : 0 < cc) (tr : Int) :
    ∀ (recs : List HistoricRecord), recs ≠ [] →
      (∀ r ∈ recs, isValidDate r.updated_date = true) →
      ∀ (idx : Int) (start? : Option Int) (days : Int),
        idx + recs.length = tr + 1 →
        calcTimeOpenLoop today oc cc tr recs idx start? none days =
          .ok (days + spanWalk today (pairsOf recs) start?) := by
  intro recs
  induction recs with
  | nil => intro h; exact absurd rfl h
  | cons rec rest ih =>
    intro _ hv idx start? days hidx
    obtain ⟨t, hd⟩ : ∃ t, rec.updated_date = .valid t := by
      have hvr := hv rec (by simp)
      cases d : rec.updated_date with
      | valid t => exact ⟨t, rfl⟩
      | malformed m => rw [d] at hvr; simp [isValidDate] at hvr
    cases rest with
    | nil =>
      have hit : idx = tr := by simp at hidx; omega
      subst hit
      cases hol : isOpenLabel (strLower rec.new_value) with
      | true =>
        cases start? with
        | none =>
          simp [calcTimeOpenLoop, hol, hd, strptime, ok_bind, hoc, hcc,
            spanWalk, pairsOf, tsOf]
        | some s =>
          simp [calcTimeOpenLoop, hol, hd, strptime, ok_bind, hoc, hcc,
            spanWalk, pairsOf, tsOf]
      | false =>
        cases start? with
        | none =>
          simp [calcTimeOpenLoop, hol, hd, strptime, ok_bind, hoc, hcc,
            spanWalk, pairsOf, tsOf]
        | some s =>
          simp [calcTimeOpenLoop, hol, hd, strptime, ok_bind, hoc, hcc,
            spanWalk, pairsOf, tsOf]
    | cons r₂ rest₂ =>
      have hne : ¬(idx = tr) := by
        simp at hidx
        omega
      have hidx₂ : (idx + 1) + ((r₂ :: rest₂).length : Int) = tr + 1 := by
        simp at hidx ⊢
        omega
      have hv₂ : ∀ r ∈ r₂ :: rest₂, isValidDate r.updated_date = true :=
        fun r hr => hv r (by simp [hr])
      cases hol : isOpenLabel (strLower rec.new_value) with
      | true =>
        cases start? with
        | none =>
          rw [show calcTimeOpenLoop today oc cc tr (rec :: r₂ :: rest₂) idx
                none none days =
              calcTimeOpenLoop today oc cc tr (r₂ :: rest₂) (idx + 1)
                (some (t - 4 * 3600)) none days from by
            simp [calcTimeOpenLoop, hol, hd, strptime, ok_bind, hoc, hcc, hne]]
          rw [ih (by simp) hv₂ (idx + 1) (some (t - 4 * 3600)) days hidx₂]
          simp [spanWalk, pairsOf, tsOf, hd, hol]
        | some s =>
          rw [show calcTimeOpenLoop today oc cc tr (rec :: r₂ :: rest₂) idx
                (some s) none days =
              calcTimeOpenLoop today oc cc tr (r₂ :: rest₂) (idx + 1)
                (some s) none days from by
            simp [calcTimeOpenLoop, hol, hd, strptime, ok_bind, hoc, hcc, hne]]
          rw [ih (by simp) hv₂ (idx + 1) (some s) days hidx₂]
          simp [spanWalk, pairsOf, tsOf, hd, hol]
      | false =>
        cases start? with
        | none =>
          rw [show calcTimeOpenLoop today oc cc tr (rec :: r₂ :: rest₂) idx
                none none days =
              calcTimeOpenLoop today oc cc tr (r₂ :: rest₂) (idx + 1)
                none none days from by
            simp [calcTimeOpenLoop, hol, hd, strptime, ok_bind, hoc, hcc, hne]]
          rw [ih (by simp) hv₂ (idx + 1) none days hidx₂]
          simp [spanWalk, pairsOf, tsOf, hd, hol]
        | some s =>
          rw [show calcTimeOpenLoop today oc cc tr (rec :: r₂ :: rest₂) idx
                (some s) none days =
              calcTimeOpenLoop today oc cc tr (r₂ :: rest₂) (idx + 1)
                none none (days + ((t - 4 * 3600) - s) / 86400) from by
            simp [calcTimeOpenLoop, hol, hd, strptime, ok_bind, hoc, hcc, hne]]
          rw [ih (by simp) hv₂ (idx + 1) none
            (days + ((t - 4 * 3600) - s) / 86400) hidx₂]
          have hsw : spanWalk today (pairsOf (rec :: r₂ :: rest₂)) (some s) =
              ((t - 4 * 3600) - s) / 86400 +
                spanWalk today (pairsOf (r₂ :: rest₂)) none := by
            simp [spanWalk, pairsOf, tsOf, hd, hol]
          rw [hsw]
          congr 1
          omega

theorem length_filter_split {α : Type} (p q : α → Bool) (l : List α) :
    (l.filter p).length =
      (l.filter fun a => p a && q a).length +
        (l.filter fun a => p a && !q a).length := by
  induction l with
  | nil => rfl
  | cons a l ih =>
    cases hp : p a <;> cases hq : q a <;>
      simp [List.filter_cons, hp, hq, ih] <;> omega

theorem statusRecsL_length (ch : List HistoricRecord) :
    (statusRecsL ch).length = openRecs ch + closedRecs ch := by
  unfold statusRecsL openRecs closedRecs
  exact length_filter_split (fun r => strLower r.field_name == "status")
    (fun r => isOpenLabel (strLower r.new_value)) ch

theorem all_open_of_closed_zero (ch : List HistoricRecord)
    (h : closedRecs ch = 0) :
    ∀ r ∈ statusRecsL ch, isOpenLabel (strLower r.new_value) = true := by
  intro r hr
  have hm := List.mem_filter.mp hr
  unfold closedRecs at h
  rw [List.length_eq_zero, List.filter_eq_nil_iff] at h
  have hz := h r hm.1
  simp [hm.2] at hz
  exact hz

theorem all_closed_of_open_zero (ch : List HistoricRecord)
    (h : openRecs ch = 0) :
    ∀ r ∈ statusRecsL ch, isOpenLabel (strLower r.new_value) = false := by
  intro r hr
  have hm := List.mem_filter.mp hr
  unfold openRecs at h
  rw [List.length_eq_zero, List.filter_eq_nil_iff] at h
  have hz := h r hm.1
  simp [hm.2] at hz
  exact hz

theorem calcTimeOpen_closedOnly (today : Int) (ch : List HistoricRecord)
    (r : HistoricRecord) (rest : List HistoricRecord)
    (hrecs : statusRecsL ch = r :: rest) (hoc : openRecs ch = 0)
    (hcc : 1 ≤ closedRecs ch) :
    calcTimeOpen today ch = .ok 1 := by
  have hcl : isOpenLabel (strLower r.new_value) = false :=
    all_closed_of_open_zero ch hoc r (by rw [hrecs]; simp)
  unfold calcTimeOpen
  dsimp only
  rw [hrecs]
  rw [openLoop_closedOnly today _ _ hoc hcc _ r rest 0 0 hcl]
  norm_num

theorem calcTimeOpen_openOnly (today : Int) (ch : List HistoricRecord)
    (r : HistoricRecord) (rest : List HistoricRecord) (T : Int)
    (hrecs : statusRecsL ch = r :: rest) (hoc : 1 ≤ openRecs ch)
    (hcc : closedRecs ch = 0) (hv : r.updated_date = .valid T) :
    calcTimeOpen today ch = .ok ((today - (T - 4 * 3600)) / 86400) := by
  have hop : isOpenLabel (strLower r.new_value) = true :=
    all_open_of_closed_zero ch hcc r (by rw [hrecs]; simp)
  unfold calcTimeOpen
  dsimp only
  rw [hrecs]
  rw [openLoop_openOnly today _ _ hoc hcc _ r rest 0 0 T hop hv]
  norm_num

theorem calcTimeOpen_mixed (today : Int) (ch : List HistoricRecord)
    (hoc : 1 ≤ openRecs ch) (hcc : 1 ≤ closedRecs ch)
    (hv : ∀ r ∈ statusRecsL ch, isValidDate r.updated_date = true) :
    calcTimeOpen today ch = .ok (spanWalk today (statusTimesL ch) none) := by
  have hlen := statusRecsL_length ch
  have hne : statusRecsL ch ≠ [] := by
    intro h
    rw [h] at hlen
    simp at hlen
    omega
  unfold calcTimeOpen
  dsimp only
  rw [openLoop_mixed today _ _ hoc hcc _ (statusRecsL ch) hne hv 0 none 0
    (by push_cast [hlen]; omega)]
  norm_num [statusTimesL]

theorem calcTimeOpen_ok (today : Int) (ch : List HistoricRecord)
    (hv : ∀ r ∈ statusRecsL ch, isValidDate r.updated_date = true) :
    ∃ v, calcTimeOpen today ch = .ok v := by
  cases hrecs : statusRecsL ch with
  | nil => exact ⟨0, calcTimeOpen_empty today ch hrecs⟩
  | cons r rest =>
    rcases Nat.eq_zero_or_pos (openRecs ch) with hoc | hoc
    · rcases Nat.eq_zero_or_pos (closedRecs ch) with hcc | hcc
      · have hlen := statusRecsL_length ch
        rw [hrecs] at hlen
        simp [hoc, hcc] at hlen
      · exact ⟨1, calcTimeOpen_closedOnly today ch r rest hrecs hoc hcc⟩
    · rcases Nat.eq_zero_or_pos (closedRecs ch) with hcc | hcc
      · obtain ⟨T, hT⟩ : ∃ T, r.updated_date = .valid T := by
          have hvr := hv r (by rw [hrecs]; simp)
          cases d : r.updated_date with
          | valid t => exact ⟨t, rfl⟩
          | malformed m => rw [d] at hvr; simp [isValidDate] at hvr
        exact ⟨_, calcTimeOpen_openOnly today ch r rest T hrecs hoc hcc hT⟩
      · exact ⟨_, calcTimeOpen_mixed today ch hoc hcc hv⟩

theorem map_ok {α β : Type} (a : α) (f : α → β) :
    (Except.ok a : Except String α).map f = .ok (f a) := rfl

/-- C1: for every issue whose filtered status-change event list has at
least two events, all parseable, in time order and none after the
evaluation instant, the total of days, hours and minutes accumulated over
all status labels, converted to minutes, reproduces the elapsed time from
the first event to the evaluation instant, each of the walked spans losing
strictly less than one minute to truncation. -/
theorem C1_sum_of_durations (ch : List HistoricRecord) (now t0 : Int)
    (r0 : HistoricRecord) (rest : List HistoricRecord)
    (hscr : statusRecs ch = r0 :: rest)
    (hlen : 2 ≤ (statusRecs ch).length)
    (hvalid : ∀ r ∈ statusRecs ch, isValidDate r.updated_date = true)
    (ht0 : r0.updated_date = RawDate.valid t0)
    (hsorted : (statusRecs ch).Pairwise fun a b =>
      tsOf a.updated_date ≤ tsOf b.updated_date)
    (hnow : ∀ r ∈ statusRecs ch, tsOf r.updated_date ≤ now) :
    ∃ tis, calcTimeInStatus now ch = .ok tis ∧
      0 ≤ now - t0 - 60 * sumMinutesOver (statusKeys ch) tis ∧
      now - t0 - 60 * sumMinutesOver (statusKeys ch) tis <
        60 * (statusRecs ch).length :=
  tis_total_minutes ch now t0 r0 rest hscr hlen hvalid ht0

theorem C1_sum_of_durations_witness :
    ∃ tis, calcTimeInStatus 201700 exEvents = .ok tis ∧
      0 ≤ 201700 - 28800 - 60 * sumMinutesOver (statusKeys exEvents) tis ∧
      201700 - 28800 - 60 * sumMinutesOver (statusKeys exEvents) tis <
        60 * (statusRecs exEvents).length :=
  C1_sum_of_durations exEvents 201700 28800 exInProgress [exDone] rfl
    (by decide) (by decide) rfl (by decide) (by decide)

/-- C2: in the mixed regime (at least one OPEN and one CLOSED event, all
parseable, in time order) days_open is exactly the span-walk total: every
completed open span contributes the whole-day difference of its
four-hour-shifted boundaries, and a span still active at the last event is
closed against today; in particular, on the two-event scenario of spec §8
the time-in-status entry for in progress is two days and days_open is 2. -/
theorem C2_open_cycles (ch : List HistoricRecord) (today : Int)
    (hvalid : ∀ r ∈ statusRecsL ch, isValidDate r.updated_date = true)
    (hsorted : (statusRecsL ch).Pairwise fun a b =>
      tsOf a.updated_date ≤ tsOf b.updated_date)
    (hopen : 1 ≤ openRecs ch) (hclosed : 1 ≤ closedRecs ch) :
    calcTimeOpen today ch = .ok (spanWalk today (statusTimesL ch) none) ∧
    tisAt 201600 exEvents "in progress" = .ok (some ⟨2, 0, 0, 0⟩) ∧
    calcTimeOpen 201600 exEvents = .ok 2 :=
  ⟨calcTimeOpen_mixed today ch hopen hclosed hvalid, rfl, rfl⟩

theorem C2_open_cycles_witness :
    calcTimeOpen 201600 exEvents =
      .ok (spanWalk 201600 (statusTimesL exEvents) none) ∧
    tisAt 201600 exEvents "in progress" = .ok (some ⟨2, 0, 0, 0⟩) ∧
    calcTimeOpen 201600 exEvents = .ok 2 :=
  C2_open_cycles exEvents 201600 (by decide) (by decide) (by decide)
    (by decide)

/-- C3: with at least two parseable, time-ordered status events the
calculator agrees with the specified walk: the first event only seeds
previous status and timestamp, each later event credits the elapsed span
(whole days, hours from the remainder seconds, minutes from what remains,
sub-minute seconds dropped) to the previous status, and the final span up
to the evaluation instant goes to the last status. -/
theorem C3_interval_walk (ch : List HistoricRecord) (now : Int)
    (hlen : 2 ≤ (statusRecs ch).length)
    (hvalid : ∀ r ∈ statusRecs ch, isValidDate r.updated_date = true)
    (hsorted : (statusRecs ch).Pairwise fun a b =>
      tsOf a.updated_date ≤ tsOf b.updated_date) :
    calcTimeInStatus now ch = .ok (timeInStatusSpec now ch) :=
  calcTimeInStatus_eq_spec now ch hlen hvalid

theorem C3_interval_walk_witness :
    calcTimeInStatus 201700 exEvents = .ok (timeInStatusSpec 201700 exEvents) :=
  C3_interval_walk exEvents 201700 (by decide) (by decide) (by decide)

/-- C4: with at least one OPEN-classified and no CLOSED-classified status
event, days_open is the whole-day difference between today and the first
OPEN event timestamp shifted back four hours, independently of all later
events (whose timestamps may even be unparseable). -/
theorem C4_open_only (ch : List HistoricRecord) (today T : Int)
    (r : HistoricRecord) (rest : List HistoricRecord)
    (hrecs : statusRecsL ch = r :: rest)
    (hopen : 1 ≤ openRecs ch) (hclosed : closedRecs ch = 0)
    (hv : r.updated_date = .valid T) :
    calcTimeOpen today ch = .ok ((today - (T - 4 * 3600)) / 86400) :=
  calcTimeOpen_openOnly today ch r rest T hrecs hopen hclosed hv

theorem C4_open_only_witness :
    calcTimeOpen 300000 c4Events =
      .ok ((300000 - (28800 - 4 * 3600)) / 86400) :=
  C4_open_only c4Events 300000 28800 c4first [c4later] rfl (by decide)
    (by decide) rfl

/-- C5: with no OPEN-classified and at least one CLOSED-classified status
event, days_open is exactly 1, whatever the timestamps are (even
unparseable ones), the walk stopping at the first event. -/
theorem C5_closed_only (ch : List HistoricRecord) (today : Int)
    (r : HistoricRecord) (rest : List HistoricRecord)
    (hrecs : statusRecsL ch = r :: rest)
    (hopen : openRecs ch = 0) (hclosed : 1 ≤ closedRecs ch) :
    calcTimeOpen today ch = .ok 1 :=
  calcTimeOpen_closedOnly today ch r rest hrecs hopen hclosed

theorem C5_closed_only_witness : calcTimeOpen 999 c5Events = .ok 1 :=
  C5_closed_only c5Events 999 ⟨"status", "Done", .malformed "not a date", "", ""⟩
    [⟨"status", "Closed", .malformed "junk", "", ""⟩] rfl (by decide) (by decide)

/-- C6: with exactly one status event, at T with new_value S, the result
credits lower-cased S with the span from T to the evaluation instant,
decomposed into whole days, hours and minutes, and holds no other label. -/
theorem C6_single_event (ch : List HistoricRecord) (now T : Int)
    (r : HistoricRecord) (hscr : statusRecs ch = [r])
    (hv : r.updated_date = .valid T) :
    tisAt now ch (strLower r.new_value) =
      .ok (some ⟨(now - T) / 86400, (now - T) % 86400 / 3600,
        (now - T) % 86400 / 60 % 60, 0⟩) ∧
    ∀ s, s ≠ strLower r.new_value → tisAt now ch s = .ok none := by
  have hm := calcTimeInStatus_single now ch r T hscr hv
  have hinit : initOf ch (strLower r.new_value) = some ⟨0, 0, 0, 0⟩ := by
    unfold initOf
    rw [hscr]
    simp
  constructor
  · unfold tisAt
    rw [hm, map_ok]
    rw [setTIS_self (initOf ch) (strLower r.new_value) now T ⟨0, 0, 0, 0⟩ hinit]
    simp
  · intro s hs
    unfold tisAt
    rw [hm, map_ok]
    rw [setTIS_ne (initOf ch) (strLower r.new_value) now T s hs]
    have hnone : initOf ch s = none := by
      unfold initOf
      rw [hscr]
      simp [hs]
    rw [hnone]

theorem C6_single_event_witness :
    tisAt 28900 [c6rec] (strLower c6rec.new_value) =
      .ok (some ⟨(28900 - 100) / 86400, (28900 - 100) % 86400 / 3600,
        (28900 - 100) % 86400 / 60 % 60, 0⟩) ∧
    ∀ s, s ≠ strLower c6rec.new_value → tisAt 28900 [c6rec] s = .ok none :=
  C6_single_event [c6rec] 28900 100 c6rec rfl rfl

/-- C7: with no status-change events at all, the time-in-status result is
an empty mapping and days_open is 0; neither calculator reports an
error. -/
theorem C7_no_history (ch : List HistoricRecord) (now today : Int)
    (h : statusRecsL ch = []) :
    (∃ tis, calcTimeInStatus now ch = .ok tis ∧ ∀ s, tis s = none) ∧
    calcTimeOpen today ch = .ok 0 := by
  have hs : statusRecs ch = [] := statusRecs_nil_of_L ch h
  exact ⟨⟨initOf ch, calcTimeInStatus_empty now ch hs,
    fun s => initOf_none ch s hs⟩, calcTimeOpen_empty today ch h⟩

theorem C7_no_history_witness :
    (∃ tis, calcTimeInStatus 5 [c7NonStatus] = .ok tis ∧ ∀ s, tis s = none) ∧
    calcTimeOpen 7 [c7NonStatus] = .ok 0 :=
  C7_no_history [c7NonStatus] 5 7 (by decide)

/-- C8 as stated is false: the pass reads the clock separately in
__calc_time_open (datetime.today()) and __calc_time_in_status
(datetime.now()); for the one-event issue below, with the two reads 0 and
172800, no single captured instant reproduces the pass. -/
theorem C8_counterexample :
    ¬ ∃ t : Int, loadIssuePass 0 172800 c8Events = singleInstantPass t c8Events := by
  rintro ⟨t, h⟩
  have h1 : calcTimeOpen 0 c8Events = calcTimeOpen t c8Events :=
    congrArg PassResult.open_days h
  have h2 : calcTimeInStatus 172800 c8Events = calcTimeInStatus t c8Events :=
    congrArg PassResult.time_in_status h
  have h30 := calcTimeOpen_openOnly 0 c8Events c8rec [] 0 rfl (by decide)
    (by decide) rfl
  have h3t := calcTimeOpen_openOnly t c8Events c8rec [] 0 rfl (by decide)
    (by decide) rfl
  rw [h30, h3t] at h1
  have hval := (Except.ok.injEq _ _).mp h1
  have h4n := calcTimeInStatus_single 172800 c8Events c8rec 0 rfl rfl
  have h4t := calcTimeInStatus_single t c8Events c8rec 0 rfl rfl
  rw [h4n, h4t] at h2
  have hfun := (Except.ok.injEq _ _).mp h2
  have hpt := congrFun hfun "in progress"
  have hsl : strLower c8rec.new_value = "in progress" := by decide
  rw [hsl] at hpt
  have hinit : initOf c8Events "in progress" = some ⟨0, 0, 0, 0⟩ := by decide
  rw [setTIS_self (initOf c8Events) "in progress" 172800 0 ⟨0, 0, 0, 0⟩ hinit,
    setTIS_self (initOf c8Events) "in progress" t 0 ⟨0, 0, 0, 0⟩ hinit] at hpt
  simp only [Option.some.injEq, TISRec.mk.injEq] at hpt
  have hdays := hpt.1
  omega

/-- C8 amended: each of the two calculators uses the clock value read at
its own call site; when all reads return the same instant the pass
coincides with the reference pass parameterized by that single captured
instant. -/
theorem C8_single_instant (t : Int) (ch : List HistoricRecord) :
    loadIssuePass t t ch = singleInstantPass t ch := rfl

theorem C8_single_instant_witness :
    loadIssuePass 5 5 exEvents = singleInstantPass 5 exEvents :=
  C8_single_instant 5 exEvents

/-- C9 as stated is false: the issue below has one status event whose
timestamp does not parse, yet the open-duration calculation succeeds with
days_open 1, because the closed-only branch never consults the
timestamp. -/
theorem C9_counterexample :
    (∃ r ∈ statusRecsL c9bad, isValidDate r.updated_date = false) ∧
    calcTimeOpen 0 c9bad = .ok 1 :=
  ⟨by decide, rfl⟩

/-- C9 amended: the time-in-status calculator fails with the strptime
error whenever any filtered status event has an unparseable timestamp; the
open-duration calculator parses a timestamp only when it consults it, so
it cannot be relied on to fail, but when every status timestamp parses,
neither calculator reports an error. -/
theorem C9_parse_error_policy :
    (∀ (now : Int) (ch : List HistoricRecord),
        (∃ r ∈ statusRecs ch, isValidDate r.updated_date = false) →
        ∃ e, calcTimeInStatus now ch = .error e) ∧
    (∀ (now : Int) (ch : List HistoricRecord),
        (∀ r ∈ statusRecs ch, isValidDate r.updated_date = true) →
        ∃ tis, calcTimeInStatus now ch = .ok tis) ∧
    (∀ (today : Int) (ch : List HistoricRecord),
        (∀ r ∈ statusRecsL ch, isValidDate r.updated_date = true) →
        ∃ v, calcTimeOpen today ch = .ok v) :=
  ⟨fun now ch h => calcTimeInStatus_error now ch h,
   fun now ch h => calcTimeInStatus_ok now ch h,
   fun today ch h => calcTimeOpen_ok today ch h⟩

theorem C9_parse_error_policy_witness :
    (∃ e, calcTimeInStatus 0 c9bad = .error e) ∧
    (∃ tis, calcTimeInStatus 0 exEvents = .ok tis) ∧
    (∃ v, calcTimeOpen 0 exEvents = .ok v) :=
  ⟨C9_parse_error_policy.1 0 c9bad (by decide),
   C9_parse_error_policy.2.1 0 exEvents (by decide),
   C9_parse_error_policy.2.2 0 exEvents (by decide)⟩

/-- C10: the seconds field of every entry produced by the time-in-status
calculation is 0: it is seeded at 0 and never updated. -/
theorem C10_seconds_zero (now : Int) (ch : List HistoricRecord)
    (tis : String → Option TISRec) (s : String) (r : TISRec)
    (h : calcTimeInStatus now ch = .ok tis) (hs : tis s = some r) :
    r.seconds = 0 :=
  calcTimeInStatus_secondsZero now ch tis h s r hs

theorem C10_seconds_zero_witness :
    ∃ tis r, calcTimeInStatus 201600 exEvents = .ok tis ∧
      tis "in progress" = some r ∧ r.seconds = 0 := by
  have h1 : tisAt 201600 exEvents "in progress" = .ok (some ⟨2, 0, 0, 0⟩) := rfl
  cases hc : calcTimeInStatus 201600 exEvents with
  | error e =>
    unfold tisAt at h1
    rw [hc] at h1
    exact absurd h1 (by simp [Except.map])
  | ok tis =>
    have hv : tis "in progress" = some ⟨2, 0, 0, 0⟩ := by
      unfold tisAt at h1
      rw [hc, map_ok] at h1
      exact (Except.ok.injEq _ _).mp h1
    exact ⟨tis, ⟨2, 0, 0, 0⟩, rfl, hv,
      C10_seconds_zero 201600 exEvents tis "in progress" ⟨2, 0, 0, 0⟩ hc hv⟩

end JiraApi
